import Mathlib

/-!
Verification of the UTR reconciliation core of the ten-s-lineups repository
(src/analytics/utr_service.py), as a shallow embedding in Lean 4.

Modelling conventions, used throughout:
* Calendar dates that the Python code obtains by parsing well-formed
  ISO strings (resultDate fields, after .split and strptime) are modelled
  as already-parsed CalDate values; the string-to-date step on the
  reconciliation inputs is an injective renaming and is not re-modelled.
  The free-text details field of a doubles trend-chart entry IS modelled
  as a character sequence, because its parsing is the algorithm itself.
* Python exceptions are modelled with Except Unit; the try/except blocks
  that turn any exception into None are the final match on that Except.
* The ambient collaborators (load_player_profile, load_player_stats,
  load_player_results, datetime.now) are an explicit Env record.
-/

/-- A calendar day, as produced by Python date parsing. -/
structure CalDate where
  year : Nat
  month : Nat
  day : Nat
deriving DecidableEq, Repr

/-- Gregorian leap-year rule, as implemented by Python's datetime validation. -/
def is_leap (y : Nat) : Bool := y % 4 = 0 && (y % 100 != 0 || y % 400 = 0)

/-- Days in a month, as enforced by Python's datetime validation. -/
def days_in_month (y m : Nat) : Nat :=
  if m = 2 then (if is_leap y then 29 else 28)
  else if m = 4 || m = 6 || m = 9 || m = 11 then 30
  else 31

/-- datetime.strptime of a year-month-day triple: yields a date when the
triple is a valid calendar day, raises (Except.error) otherwise. -/
def mk_date (y m d : Nat) : Except Unit CalDate :=
  if 1 ≤ m ∧ m ≤ 12 ∧ 1 ≤ d ∧ d ≤ days_in_month y m then .ok ⟨y, m, d⟩
  else .error ()

/-- Python int() on a nonempty digit string. -/
def digits_to_nat (l : List Char) : Nat :=
  l.foldl (fun a c => a * 10 + (c.toNat - '0'.toNat)) 0

/-- Maximal leading run of ASCII digits (regex digit-plus, greedy). -/
def take_digits : List Char → List Char × List Char
  | [] => ([], [])
  | c :: cs =>
    if c.isDigit then
      let p := take_digits cs
      (c :: p.1, p.2)
    else ([], c :: cs)

/-- Maximal leading run of ASCII letters (regex letter-plus, greedy). -/
def take_alpha : List Char → List Char × List Char
  | [] => ([], [])
  | c :: cs =>
    if c.isAlpha then
      let p := take_alpha cs
      (c :: p.1, p.2)
    else ([], c :: cs)

/-- One attempt of the sub-pattern digits.digits (as in the rating regex) at the
start of the input: on success returns the matched text and the rest. -/
def match_decimal (s : List Char) : Option (List Char × List Char) :=
  match take_digits s with
  | ([], _) => none
  | (d1 :: ds1, rest1) =>
    match rest1 with
    | '.' :: r2 =>
      match take_digits r2 with
      | ([], _) => none
      | (e1 :: es1, rest2) => some ((d1 :: ds1) ++ '.' :: (e1 :: es1), rest2)
    | _ => none

/-- One attempt of the doubles rating regex
open-paren digits.digits slash digits.digits close-paren
at the start of the input: on success returns the two captured rating texts
and the rest of the input after the match. -/
def match_utr_pair (s : List Char) : Option ((List Char × List Char) × List Char) :=
  match s with
  | '(' :: r1 =>
    match match_decimal r1 with
    | some (a, r2) =>
      match r2 with
      | '/' :: r3 =>
        match match_decimal r3 with
        | some (b, r4) =>
          match r4 with
          | ')' :: r5 => some ((a, b), r5)
          | _ => none
        | none => none
      | _ => none
    | none => none
  | _ => none

/-- Fuel-indexed scanner for the rating-pair regex; the fuel only bounds the
recursion depth (utr_scan_fuel_irrelevant shows the input length is enough). -/
def utr_scan : Nat → List Char → List (List Char × List Char)
  | 0, _ => []
  | _ + 1, [] => []
  | fuel + 1, c :: cs =>
    match match_utr_pair (c :: cs) with
    | some (p, r) => p :: utr_scan fuel r
    | none => utr_scan fuel cs

/-- re.findall of the doubles rating-pair regex: scans left to right, on a
match emits the captured pair and resumes after it, otherwise advances one
character. -/
def utr_findall (s : List Char) : List (List Char × List Char) :=
  utr_scan s.length s

/-- One attempt of the abbreviated-name regex
uppercase-letter dot letter-plus
at the start of the input: on success returns the captured name text and the
rest of the input after the match. -/
def match_name (s : List Char) : Option (List Char × List Char) :=
  match s with
  | c1 :: '.' :: rest =>
    if c1.isUpper then
      match take_alpha rest with
      | ([], _) => none
      | (a1 :: as1, rest2) => some (c1 :: '.' :: (a1 :: as1), rest2)
    else none
  | _ => none

/-- Fuel-indexed scanner for the abbreviated-name regex; the fuel only bounds
the recursion depth (name_scan_fuel_irrelevant shows the input length is
enough). -/
def name_scan : Nat → List Char → List (List Char)
  | 0, _ => []
  | _ + 1, [] => []
  | fuel + 1, c :: cs =>
    match match_name (c :: cs) with
    | some (a, r) => a :: name_scan fuel r
    | none => name_scan fuel cs

/-- re.findall of the abbreviated-name regex: scans left to right, on a match
emits the captured name and resumes after it, otherwise advances one
character. -/
def name_findall (s : List Char) : List (List Char) :=
  name_scan s.length s

/-- Python regex whitespace class over ASCII. -/
def py_isspace (c : Char) : Bool :=
  c = ' ' || c = '\t' || c = '\n' || c = '\r' || c = '\x0b' || c = '\x0c'

/-- The seven weekday alternatives of the leading date regex. -/
def weekday_abbrs : List (List Char) :=
  [['S','u','n'], ['M','o','n'], ['T','u','e'], ['W','e','d'],
   ['T','h','u'], ['F','r','i'], ['S','a','t']]

/-- re.search of the anchored date regex
caret weekday-alternation whitespace three-letters whitespace one-or-two-digits:
because of the anchor it can only match at the start.  Returns the three
captured groups (weekday, month abbreviation, day digits). -/
def date_search (s : List Char) : Option (List Char × List Char × List Char) :=
  match s with
  | w1 :: w2 :: w3 :: sp1 :: m1 :: m2 :: m3 :: sp2 :: d1 :: rest =>
    if weekday_abbrs.contains [w1, w2, w3] && py_isspace sp1 &&
       m1.isAlpha && m2.isAlpha && m3.isAlpha && py_isspace sp2 && d1.isDigit then
      match rest with
      | d2 :: _ =>
        if d2.isDigit then some ([w1, w2, w3], [m1, m2, m3], [d1, d2])
        else some ([w1, w2, w3], [m1, m2, m3], [d1])
      | [] => some ([w1, w2, w3], [m1, m2, m3], [d1])
    else none
  | _ => none

/-- datetime.strptime of a month abbreviation with the month directive:
case-insensitive lookup of the English three-letter month abbreviation,
raising on anything else. -/
def month_from_abbr (s : List Char) : Except Unit Nat :=
  let t := s.map Char.toLower
  if t = ['j','a','n'] then .ok 1
  else if t = ['f','e','b'] then .ok 2
  else if t = ['m','a','r'] then .ok 3
  else if t = ['a','p','r'] then .ok 4
  else if t = ['m','a','y'] then .ok 5
  else if t = ['j','u','n'] then .ok 6
  else if t = ['j','u','l'] then .ok 7
  else if t = ['a','u','g'] then .ok 8
  else if t = ['s','e','p'] then .ok 9
  else if t = ['o','c','t'] then .ok 10
  else if t = ['n','o','v'] then .ok 11
  else if t = ['d','e','c'] then .ok 12
  else .error ()

/-- A player profile row, as loaded by load_player_profile (first row of the
profile table; firstName and lastName columns). -/
structure Profile where
  firstName : String
  lastName : String
deriving DecidableEq, Repr

/-- player_id_lookup from src/analytics/utr_service.py (lines 15-36).
Loads the profile for player_id; a missing profile returns none.  Forms the
short name from the first character of the first name and the last name and
compares it with player_name; equality returns the player_id, anything else
none.  Indexing the first character of an empty first name raises in Python;
the surrounding except block turns that into none as well. -/
def player_id_lookup (profiles : String → Option Profile) (pid player_name : String) :
    Option String :=
  match profiles pid with
  | none => none
  | some prof =>
    match prof.firstName.data with
    | [] => none
    | c :: _ => if player_name = String.mk [c, '.'] ++ prof.lastName then some pid else none

/-- The year assignment of utr_service.py lines 90-92: start from the current
processing year and subtract one when the parsed month is numerically later
than the current processing month. -/
def infer_year (nowY nowM parsedM : Nat) : Nat :=
  if parsedM > nowM then nowY - 1 else nowY

/-- The row-date reconstruction of utr_service.py lines 90-94: the inferred
year, the parsed month and the parsed day, validated by strptime. -/
def reconstruct_date (nowY nowM parsedM day : Nat) : Except Unit CalDate :=
  mk_date (infer_year nowY nowM parsedM) parsedM day

/-- Outcome of processing one doubles trend-chart result entry inside the
month/result loops of get_match_utr: hit returns a rating from the function,
stop_none is a plain return None from inside the loops, next falls through to
the following result entry. -/
inductive ScanStep where
  | hit (utr : List Char)
  | stop_none
  | next
deriving DecidableEq, Repr

/-- The body of the doubles result loop of get_match_utr
(src/analytics/utr_service.py lines 83-124) for one result entry with the
given details text: the three regex extractions, the truthiness guard, date
reconstruction and comparison, positional indexing of the four names and four
ratings, and team resolution through player_id_lookup.  The else branch of
the guard and the branch where the subject resolves against none of the four
names both return None from the whole function (stop_none); a date mismatch
falls through to the next entry (next); failed indexing and invalid dates
raise (error). -/
def process_result (profiles : String → Option Profile) (nowY nowM : Nat)
    (pid : String) (match_date : CalDate) (details : List Char) :
    Except Unit ScanStep :=
  match date_search details with
  | none => .ok .stop_none
  | some (_, month_abbr, day_str) =>
    if utr_findall details = [] ∨ name_findall details = [] then .ok .stop_none
    else
      match month_from_abbr month_abbr with
      | .error e => .error e
      | .ok parsedM =>
        match reconstruct_date nowY nowM parsedM (digits_to_nat day_str) with
        | .error e => .error e
        | .ok row_date =>
          if row_date = match_date then
            match (name_findall details).get? 0, (name_findall details).get? 1,
                  (name_findall details).get? 2, (name_findall details).get? 3,
                  (utr_findall details).get? 0, (utr_findall details).get? 1 with
            | some n1, some n2, some n3, some n4, some u12, some u34 =>
              if player_id_lookup profiles pid (String.mk n1) = some pid ∨
                 player_id_lookup profiles pid (String.mk n2) = some pid then
                if player_id_lookup profiles pid (String.mk n1) = some pid then
                  .ok (.hit u12.1)
                else .ok (.hit u12.2)
              else if player_id_lookup profiles pid (String.mk n3) = some pid ∨
                      player_id_lookup profiles pid (String.mk n4) = some pid then
                if player_id_lookup profiles pid (String.mk n3) = some pid then
                  .ok (.hit u34.1)
                else .ok (.hit u34.2)
              else .ok .stop_none
            | _, _, _, _, _, _ => .error ()
          else .ok .next

/-- One results entry of a rating-trend-chart month bucket: the resultDate of
its first description (used by the singles scan) and the free-text details of
its first description (used by the doubles scan). -/
structure TrendResult where
  resultDate : CalDate
  details : String
deriving DecidableEq, Repr

/-- One month bucket of a rating-trend chart.  ratings is none when the
bucket has no ratings key (indexing it raises in Python) and some l when the
key maps to the list l of ratingDisplay values; results is the possibly empty
results list. -/
structure MonthBucket where
  ratings : Option (List String)
  results : List TrendResult
deriving DecidableEq, Repr

/-- The singles result loop of utr_service.py lines 58-63 over one bucket:
the first entry whose date equals the match date returns the head of the
bucket's ratings list; an absent ratings key raises; an empty ratings list
makes the inner for loop run zero times, so the scan falls through to the
next entry.  Returns none when the entry list is exhausted. -/
def singles_scan_results (ratings : Option (List String)) (d : CalDate) :
    List TrendResult → Except Unit (Option String)
  | [] => .ok none
  | r :: rs =>
    if r.resultDate = d then
      match ratings with
      | none => .error ()
      | some [] => singles_scan_results ratings d rs
      | some (x :: _) => .ok (some x)
    else singles_scan_results ratings d rs

/-- The singles month loop of utr_service.py lines 56-63: buckets with a
falsy results list are skipped; otherwise the bucket's results are scanned
and a miss falls through to the next bucket. -/
def singles_scan (d : CalDate) : List MonthBucket → Except Unit (Option String)
  | [] => .ok none
  | m :: ms =>
    if m.results.isEmpty then singles_scan d ms
    else
      match singles_scan_results m.ratings d m.results with
      | .error e => .error e
      | .ok (some x) => .ok (some x)
      | .ok none => singles_scan d ms

/-- The doubles result loop of utr_service.py lines 82-124 over one bucket:
each entry is processed by process_result; a hit or a plain return None ends
the whole scan, next moves to the following entry, and entry exhaustion
reports next to move to the following bucket. -/
def doubles_scan_results (profiles : String → Option Profile) (nowY nowM : Nat)
    (pid : String) (d : CalDate) : List TrendResult → Except Unit ScanStep
  | [] => .ok .next
  | r :: rs =>
    match process_result profiles nowY nowM pid d r.details.data with
    | .error e => .error e
    | .ok .next => doubles_scan_results profiles nowY nowM pid d rs
    | .ok s => .ok s

/-- The doubles month loop of utr_service.py lines 80-126: buckets with a
falsy results list are skipped; a hit returns the rating, a plain return None
from inside the loops returns None, and a miss falls through to the next
bucket. -/
def doubles_scan (profiles : String → Option Profile) (nowY nowM : Nat)
    (pid : String) (d : CalDate) : List MonthBucket → Except Unit (Option String)
  | [] => .ok none
  | m :: ms =>
    if m.results.isEmpty then doubles_scan profiles nowY nowM pid d ms
    else
      match doubles_scan_results profiles nowY nowM pid d m.results with
      | .error e => .error e
      | .ok (.hit u) => .ok (some (String.mk u))
      | .ok .stop_none => .ok none
      | .ok .next => doubles_scan profiles nowY nowM pid d ms

/-- One row of a player results table, as consumed by get_player_utr_scores
(src/analytics/utr_service.py lines 142-156).  winner2 is the winner2 field
of the parsed players JSON: none models a players structure missing that key
(indexing it raises in Python), some none a null value (singles), and
some (some w) a doubles partner. -/
structure ResultRow where
  event_id : String
  winner2 : Option (Option String)
  date : CalDate
  event_name : String
deriving DecidableEq, Repr

/-- The ambient collaborators of utr_service.py: load_player_profile,
load_player_stats keyed by player id and match-type string (none when the
stats file is missing or its chart/months are falsy), load_player_results,
and the processing date datetime.now() as year and month. -/
structure Env where
  profiles : String → Option Profile
  stats : String → String → Option (List MonthBucket)
  results : String → Option (List ResultRow)
  nowY : Nat
  nowM : Nat

/-- The match_data argument of get_match_utr: the resultDate and details of
its single description (only resultDate is ever read). -/
structure MatchData where
  resultDate : CalDate
  details : String
deriving DecidableEq, Repr

/-- get_match_utr from src/analytics/utr_service.py (lines 38-129): load the
trend chart for (player, match_type); a missing chart or falsy month list
returns None; otherwise run the singles or doubles month scan; the enclosing
except block maps any raised exception to None. -/
def get_match_utr (env : Env) (pid : String) (match_data : MatchData)
    (match_type : String) : Option String :=
  let body : Except Unit (Option String) :=
    if match_type = "singles" then
      match env.stats pid match_type with
      | none => .ok none
      | some months =>
        if months.isEmpty then .ok none
        else singles_scan match_data.resultDate months
    else
      match env.stats pid match_type with
      | none => .ok none
      | some months =>
        if months.isEmpty then .ok none
        else doubles_scan env.profiles env.nowY env.nowM pid match_data.resultDate months
  match body with
  | .ok v => v
  | .error _ => none

/-- The value stored per match by get_player_utr_scores: the rating found and
the match's original date. -/
structure UtrRec where
  utr : String
  date : CalDate
deriving DecidableEq, Repr

/-- Python dict assignment on an association list that keeps insertion order:
an existing key is overwritten in place, a new key is appended. -/
def dict_insert (m : List (String × UtrRec)) (k : String) (v : UtrRec) :
    List (String × UtrRec) :=
  if m.any (fun p => p.1 = k) then
    m.map (fun p => if p.1 = k then (k, v) else p)
  else m ++ [(k, v)]

/-- The row loop of get_player_utr_scores (utr_service.py lines 142-156):
read the winner2 field of the row's players structure (a missing key raises),
derive the match type, look up the match rating, and store it only when the
lookup returned a value. -/
def rows_loop (env : Env) (pid : String) :
    List ResultRow → List (String × UtrRec) → Except Unit (List (String × UtrRec))
  | [], acc => .ok acc
  | row :: rest, acc =>
    match row.winner2 with
    | none => .error ()
    | some w2 =>
      let match_type := if w2 = none then "singles" else "doubles"
      match get_match_utr env pid ⟨row.date, row.event_name⟩ match_type with
      | some u => rows_loop env pid rest (dict_insert acc row.event_id ⟨u, row.date⟩)
      | none => rows_loop env pid rest acc

/-- get_player_utr_scores from src/analytics/utr_service.py (lines 131-164):
a missing or empty results table returns the empty mapping; otherwise the row
loop builds the per-match mapping, and the enclosing except block maps any
raised exception to None. -/
def get_player_utr_scores (env : Env) (pid : String) :
    Option (List (String × UtrRec)) :=
  match env.results pid with
  | none => some []
  | some rows =>
    if rows.isEmpty then some []
    else
      match rows_loop env pid rows [] with
      | .ok m => some m
      | .error _ => none

/-- One rating-shift record as consumed by the Historical Rating Estimator:
the masked win/loss outcome and the unmasked true rating.
Modelled from the spec: the estimator component is not present under src of
this repository snapshot; record fields follow section 3 and section 4.5 of
the specification, keeping only the fields the estimation algorithm reads. -/
structure ShiftRecord where
  win : Bool
  trueRating : ℚ
deriving DecidableEq, Repr

/-- A rating-shift record with the estimated-rating field added.
Modelled from the spec: output row shape of the Historical Rating Estimator
of section 4.5. -/
structure EstRecord where
  base : ShiftRecord
  estimatedRating : ℚ
deriving DecidableEq, Repr

/-- The fixed per-step adjustment of the estimator: plus 0.02 after a win of
the more recent record, minus 0.02 after a loss.
Modelled from the spec: section 4.5 of the specification. -/
def est_step (prevEst : ℚ) (prevWin : Bool) : ℚ :=
  prevEst + (if prevWin then (1 : ℚ)/50 else -((1 : ℚ)/50))

/-- The backward walk of the estimator over the records older than the most
recent one: each record's estimated rating is the previous (more recent)
record's estimated rating adjusted by the fixed step on that previous
record's masked outcome.
Modelled from the spec: section 4.5 of the specification. -/
def est_walk (prev : EstRecord) : List ShiftRecord → List EstRecord
  | [] => []
  | r :: rs =>
    ⟨r, est_step prev.estimatedRating prev.base.win⟩ ::
      est_walk ⟨r, est_step prev.estimatedRating prev.base.win⟩ rs

/-- The Historical Rating Estimator: on a most-recent-first sequence the
first record's estimated rating is its own true rating and every older
record follows by the fixed step; the empty sequence is returned unchanged.
Modelled from the spec: estimate of section 4.5 of the specification, which
is not present under src of this repository snapshot. -/
def estimate : List ShiftRecord → List EstRecord
  | [] => []
  | r :: rs => ⟨r, r.trueRating⟩ :: est_walk ⟨r, r.trueRating⟩ rs

/-- The exponential decay factor of the Weighted Rating Aggregator.
Modelled from the spec: section 4.6 of the specification. -/
def decay_factor : ℚ := 19/20

/-- Rounding to two decimal places.
Modelled from the spec: section 4.6 of the specification. -/
def round2 (q : ℚ) : ℚ := (round (q * 100) : ℤ) / 100

/-- Accumulates the weighted sum and the weight sum of a rating sequence,
starting from the given weight of the first element and decaying by
decay_factor at each step.
Modelled from the spec: section 4.6 of the specification. -/
def weighted_sums : List ℚ → ℚ → ℚ × ℚ
  | [], _ => (0, 0)
  | r :: rs, w =>
    let p := weighted_sums rs (w * decay_factor)
    (r * w + p.1, w + p.2)

/-- The Weighted Rating Aggregator: no value on the empty sequence, otherwise
the decay-weighted mean of the most-recent-first ratings rounded to two
decimals.
Modelled from the spec: aggregate of section 4.6 of the specification, which
is not present under src of this repository snapshot. -/
def aggregate (ratings : List ℚ) : Option ℚ :=
  match ratings with
  | [] => none
  | _ => some (round2 ((weighted_sums ratings 1).1 / (weighted_sums ratings 1).2))

/-- Profile store with one player whose short name is J.Smith. -/
def prof_store : String → Option Profile :=
  fun p => if p = "p1" then some ⟨"John", "Smith"⟩ else none

/-- A well-formed doubles details text: leading date token, two rating
pairs, four abbreviated names. -/
def good_details : String :=
  "Sat Apr 12 vs (11.2/9.8) (10.1/8.5) J.Smith A.Jones K.Lee M.Chen"

/-- A details text matching none of the three structural patterns. -/
def bad_details : String := "some garbage with no structure"

/-- A details text with three rating pairs and five name tokens. -/
def extra_details : String :=
  "Sat Apr 12 (11.2/9.8) (10.1/8.5) (7.7/6.6) J.Smith A.Jones K.Lee M.Chen X.Extra"

/-- The match date shared by the concrete scenarios. -/
def d_apr12 : CalDate := ⟨2025, 4, 12⟩

/-- The match_data argument shared by the concrete scenarios. -/
def md_apr : MatchData := ⟨d_apr12, "x"⟩

/-- Environment whose doubles chart has an unparseable entry followed by a
parseable, date-matching, resolvable entry. -/
def env_c2 : Env :=
  { profiles := prof_store
    stats := fun p mt =>
      if p = "p1" ∧ mt = "doubles" then
        some [⟨some [], [⟨d_apr12, bad_details⟩, ⟨d_apr12, good_details⟩]⟩]
      else none
    results := fun _ => none
    nowY := 2025
    nowM := 4 }

/-- Environment whose doubles chart has only the parseable entry of env_c2. -/
def env_c2_good : Env :=
  { profiles := prof_store
    stats := fun p mt =>
      if p = "p1" ∧ mt = "doubles" then
        some [⟨some [], [⟨d_apr12, good_details⟩]⟩]
      else none
    results := fun _ => none
    nowY := 2025
    nowM := 4 }

/-- Environment whose doubles chart holds the three-pair five-name entry. -/
def env_c3 : Env :=
  { profiles := prof_store
    stats := fun p mt =>
      if p = "p1" ∧ mt = "doubles" then
        some [⟨some [], [⟨d_apr12, extra_details⟩]⟩]
      else none
    results := fun _ => none
    nowY := 2025
    nowM := 4 }

/-- Environment whose singles chart has a bucket with a date-matching results
entry but an empty ratings list. -/
def env_c1 : Env :=
  { profiles := fun _ => none
    stats := fun p mt =>
      if p = "p1" ∧ mt = "singles" then some [⟨some [], [⟨d_apr12, "e"⟩]⟩]
      else none
    results := fun _ => none
    nowY := 2025
    nowM := 4 }

/-- Environment whose singles chart has a bucket with two ratings and two
results entries, the second of which matches the scenario date. -/
def env_c1_pos : Env :=
  { profiles := fun _ => none
    stats := fun p mt =>
      if p = "p1" ∧ mt = "singles" then
        some [⟨some ["10.5", "11"], [⟨⟨2025, 4, 10⟩, "e"⟩, ⟨d_apr12, "e"⟩]⟩]
      else none
    results := fun _ => none
    nowY := 2025
    nowM := 4 }

/-- A singles results row whose lookup succeeds against the env_c1_pos chart. -/
def row_good : ResultRow := ⟨"m1", some none, d_apr12, "Singles A"⟩

/-- A results row whose players structure is missing the winner2 field. -/
def row_bad : ResultRow := ⟨"m0", none, d_apr12, "Bad"⟩

/-- A singles results row whose date appears nowhere in the chart, so its
rating lookup returns not-found. -/
def row_miss : ResultRow := ⟨"m2", some none, ⟨2025, 5, 1⟩, "Singles B"⟩

/-- Environment whose results feed has a malformed row followed by a good
row; the singles chart resolves the good row. -/
def env_c7 : Env :=
  { profiles := fun _ => none
    stats := fun p mt =>
      if p = "p1" ∧ mt = "singles" then
        some [⟨some ["10.5", "11"], [⟨⟨2025, 4, 10⟩, "e"⟩, ⟨d_apr12, "e"⟩]⟩]
      else none
    results := fun p => if p = "p1" then some [row_bad, row_good] else none
    nowY := 2025
    nowM := 4 }

/-- Environment like env_c7 but with only the good row. -/
def env_c7_good : Env :=
  { profiles := fun _ => none
    stats := fun p mt =>
      if p = "p1" ∧ mt = "singles" then
        some [⟨some ["10.5", "11"], [⟨⟨2025, 4, 10⟩, "e"⟩, ⟨d_apr12, "e"⟩]⟩]
      else none
    results := fun p => if p = "p1" then some [row_good] else none
    nowY := 2025
    nowM := 4 }

/-- Environment with a good row and a row whose rating lookup fails. -/
def env_c7_wit : Env :=
  { profiles := fun _ => none
    stats := fun p mt =>
      if p = "p1" ∧ mt = "singles" then
        some [⟨some ["10.5", "11"], [⟨⟨2025, 4, 10⟩, "e"⟩, ⟨d_apr12, "e"⟩]⟩]
      else none
    results := fun p => if p = "p1" then some [row_good, row_miss] else none
    nowY := 2025
    nowM := 4 }

/-- Environment with empty collaborator stores. -/
def env_c9_a : Env :=
  { profiles := fun _ => none
    stats := fun _ _ => none
    results := fun _ => none
    nowY := 2025
    nowM := 4 }

/-- Environment like env_c9_a except for a different results store. -/
def env_c9_b : Env :=
  { profiles := fun _ => none
    stats := fun _ _ => none
    results := fun p => if p = "p1" then some [row_good] else none
    nowY := 2025
    nowM := 4 }

theorem take_digits_snd_length : ∀ s : List Char, (take_digits s).2.length ≤ s.length := by
  intro s
  induction s with
  | nil => simp [take_digits]
  | cons c cs ih =>
    simp only [take_digits]
    split
    · simpa using Nat.le_succ_of_le ih
    · simp

theorem take_alpha_snd_length : ∀ s : List Char, (take_alpha s).2.length ≤ s.length := by
  intro s
  induction s with
  | nil => simp [take_alpha]
  | cons c cs ih =>
    simp only [take_alpha]
    split
    · simpa using Nat.le_succ_of_le ih
    · simp

theorem match_decimal_length {s a r} (h : match_decimal s = some (a, r)) :
    r.length < s.length := by
  unfold match_decimal at h
  split at h
  · exact absurd h (by simp)
  · rename_i d1 ds1 rest1 heq1
    split at h
    · rename_i r2
      split at h
      · exact absurd h (by simp)
      · rename_i e1 es1 rest2 heq2
        simp only [Option.some.injEq, Prod.mk.injEq] at h
        have hr : r = rest2 := h.2.symm
        subst hr
        have h2 : (take_digits r2).2.length ≤ r2.length := take_digits_snd_length r2
        rw [heq2] at h2
        have h3 : (take_digits s).2.length ≤ s.length := take_digits_snd_length s
        rw [heq1] at h3
        simp only [List.length_cons] at h2 h3
        omega
    · exact absurd h (by simp)

theorem match_utr_pair_length {s p r} (h : match_utr_pair s = some (p, r)) :
    r.length < s.length := by
  unfold match_utr_pair at h
  split at h
  · rename_i r1
    split at h
    · rename_i a r2 hd1
      split at h
      · rename_i r3
        split at h
        · rename_i b r4 hd2
          split at h
          · rename_i r5
            simp only [Option.some.injEq, Prod.mk.injEq] at h
            have l1 := match_decimal_length hd1
            have l2 := match_decimal_length hd2
            have hr : r = r5 := h.2.symm
            subst hr
            simp_all
            omega
          · exact absurd h (by simp)
        · exact absurd h (by simp)
      · exact absurd h (by simp)
    · exact absurd h (by simp)
  · exact absurd h (by simp)

theorem utr_scan_fuel_irrelevant :
    ∀ fuel s, List.length s ≤ fuel → ∀ k, utr_scan (fuel + k) s = utr_scan fuel s := by
  intro fuel
  induction fuel with
  | zero =>
    intro s hs k
    have : s = [] := List.length_eq_zero.mp (Nat.le_zero.mp hs)
    subst this
    cases k <;> simp [utr_scan]
  | succ n ih =>
    intro s hs k
    match s with
    | [] => cases k <;> simp [utr_scan]
    | c :: cs =>
      have hstep : n + 1 + k = (n + k) + 1 := by omega
      rw [hstep]
      simp only [utr_scan]
      cases hp : match_utr_pair (c :: cs) with
      | some pr =>
        have hlen : pr.2.length ≤ n := by
          have := match_utr_pair_length (p := pr.1) (r := pr.2) (by simpa using hp)
          simp at this hs
          omega
        simp [ih pr.2 hlen k]
      | none =>
        have hlen : cs.length ≤ n := by simp at hs; omega
        simp [ih cs hlen k]

theorem match_name_length {s a r} (h : match_name s = some (a, r)) :
    r.length < s.length := by
  unfold match_name at h
  split at h
  · rename_i c1 rest
    split at h
    · split at h
      · exact absurd h (by simp)
      · rename_i a1 as1 rest2 heq
        simp only [Option.some.injEq, Prod.mk.injEq] at h
        have hr : r = rest2 := h.2.symm
        subst hr
        have h2 : (take_alpha rest).2.length ≤ rest.length := take_alpha_snd_length rest
        rw [heq] at h2
        simp only [List.length_cons] at h2 ⊢
        omega
    · exact absurd h (by simp)
  · exact absurd h (by simp)

theorem name_scan_fuel_irrelevant :
    ∀ fuel s, List.length s ≤ fuel → ∀ k, name_scan (fuel + k) s = name_scan fuel s := by
  intro fuel
  induction fuel with
  | zero =>
    intro s hs k
    have : s = [] := List.length_eq_zero.mp (Nat.le_zero.mp hs)
    subst this
    cases k <;> simp [name_scan]
  | succ n ih =>
    intro s hs k
    match s with
    | [] => cases k <;> simp [name_scan]
    | c :: cs =>
      have hstep : n + 1 + k = (n + k) + 1 := by omega
      rw [hstep]
      simp only [name_scan]
      cases hp : match_name (c :: cs) with
      | some pr =>
        have hlen : pr.2.length ≤ n := by
          have := match_name_length (a := pr.1) (r := pr.2) (by simpa using hp)
          simp at this hs
          omega
        simp [ih pr.2 hlen k]
      | none =>
        have hlen : cs.length ≤ n := by simp at hs; omega
        simp [ih cs hlen k]

/-- C4: for every parsed doubles entry, the reconstructed date takes the
current processing year when the parsed month is at most the current
processing month, and the processing year minus one when the parsed month is
strictly later than the current processing month. -/
theorem c4_year_inference :
    ∀ nowY nowM parsedM day,
      (parsedM ≤ nowM →
        infer_year nowY nowM parsedM = nowY ∧
        ∀ c, reconstruct_date nowY nowM parsedM day = .ok c → c.year = nowY) ∧
      (nowM < parsedM →
        infer_year nowY nowM parsedM = nowY - 1 ∧
        ∀ c, reconstruct_date nowY nowM parsedM day = .ok c → c.year = nowY - 1) := by
  intro nowY nowM parsedM day
  have hy : ∀ c, reconstruct_date nowY nowM parsedM day = .ok c →
      c.year = infer_year nowY nowM parsedM := by
    intro c hc
    unfold reconstruct_date mk_date at hc
    split at hc
    · simp only [Except.ok.injEq] at hc
      rw [← hc]
    · exact absurd hc (by simp)
  constructor
  · intro hle
    have hiy : infer_year nowY nowM parsedM = nowY := by
      unfold infer_year
      rw [if_neg (by omega)]
    exact ⟨hiy, fun c hc => (hy c hc).trans hiy⟩
  · intro hlt
    have hiy : infer_year nowY nowM parsedM = nowY - 1 := by
      unfold infer_year
      rw [if_pos (by omega)]
    exact ⟨hiy, fun c hc => (hy c hc).trans hiy⟩

/-- C4 witness: a December description processed in March gets the previous
year; a January description processed in March gets the current year. -/
theorem c4_year_inference_witness :
    (12 ≤ 3 ∨ 3 < 12) ∧ infer_year 2025 3 12 = 2024 ∧ infer_year 2025 3 1 = 2025 :=
  ⟨Or.inr (by decide),
   ((c4_year_inference 2025 3 12 15).2 (by decide)).1,
   ((c4_year_inference 2025 3 1 15).1 (by decide)).1⟩

/-- C8: the identity resolver returns the candidate id exactly when a profile
was found and its formed short name, first initial dot last name, is
character-for-character equal to the queried short name; in every other case,
a missing profile and an empty first name included, it returns none; it is a
total function, so it never raises. -/
theorem c8_lookup :
    ∀ (profiles : String → Option Profile) (pid name : String),
      (player_id_lookup profiles pid name = some pid ↔
        ∃ prof c rest, profiles pid = some prof ∧ prof.firstName.data = c :: rest ∧
          name = String.mk [c, '.'] ++ prof.lastName) ∧
      (player_id_lookup profiles pid name = some pid ∨
        player_id_lookup profiles pid name = none) := by
  intro profiles pid name
  constructor
  · constructor
    · intro h
      unfold player_id_lookup at h
      split at h
      · exact absurd h (by simp)
      · rename_i prof hprof
        split at h
        · exact absurd h (by simp)
        · rename_i c rest hdata
          split at h
          · rename_i heq
            exact ⟨prof, c, rest, hprof, hdata, heq⟩
          · exact absurd h (by simp)
    · rintro ⟨prof, c, rest, hprof, hdata, hname⟩
      subst hname
      simp only [player_id_lookup, hprof, hdata, if_true]
  · unfold player_id_lookup
    split
    · exact Or.inr rfl
    · split
      · exact Or.inr rfl
      · split
        · exact Or.inl rfl
        · exact Or.inr rfl

/-- C8 witness: against a store holding a profile with first name John and
last name Smith, the resolver maps the matching short name J.Smith to the
candidate id. -/
theorem c8_lookup_witness :
    prof_store "p1" = some ⟨"John", "Smith"⟩ ∧
    player_id_lookup prof_store "p1" "J.Smith" = some "p1" :=
  ⟨rfl, (c8_lookup prof_store "p1" "J.Smith").1.mpr
    ⟨⟨"John", "Smith"⟩, 'J', "ohn".data, rfl, rfl, rfl⟩⟩

/-- C9: with the processing date an explicit environment field, the locator
is a pure function of the profile store, the stats store and the processing
date: two environments agreeing on those (the results store may differ)
produce identical locate output on every invocation, and the estimator is a
pure function of its input sequence. -/
theorem c9_determinism :
    ∀ e₁ e₂ : Env, e₁.profiles = e₂.profiles → e₁.stats = e₂.stats →
      e₁.nowY = e₂.nowY → e₁.nowM = e₂.nowM →
      (∀ pid md mt, get_match_utr e₁ pid md mt = get_match_utr e₂ pid md mt) ∧
      (∀ l l', l = l' → estimate l = estimate l') := by
  intro e₁ e₂ hp hs hy hm
  cases e₁
  cases e₂
  simp only at hp hs hy hm
  subst hp
  subst hs
  subst hy
  subst hm
  exact ⟨fun _ _ _ => rfl, fun _ _ h => by rw [h]⟩

/-- C9 witness: two environments differing only in their results stores give
the same locate output, and the estimator repeats its output on the repeated
input. -/
theorem c9_determinism_witness :
    get_match_utr env_c9_a "p1" md_apr "singles" =
      get_match_utr env_c9_b "p1" md_apr "singles" ∧
    estimate [⟨true, (8 : ℚ)⟩] = estimate [⟨true, (8 : ℚ)⟩] :=
  ⟨(c9_determinism env_c9_a env_c9_b rfl rfl rfl rfl).1 "p1" md_apr "singles",
   (c9_determinism env_c9_a env_c9_b rfl rfl rfl rfl).2 _ _ rfl⟩

theorem est_walk_map_base :
    ∀ (l : List ShiftRecord) (x : EstRecord), (est_walk x l).map EstRecord.base = l := by
  intro l
  induction l with
  | nil => intro x; rfl
  | cons r rs ih => intro x; simp [est_walk, ih]

theorem est_walk_adjacent :
    ∀ (l : List ShiftRecord) (x : EstRecord) (i : Nat) (ei ej : EstRecord),
      (x :: est_walk x l).get? i = some ei → (x :: est_walk x l).get? (i + 1) = some ej →
      ej.estimatedRating =
        ei.estimatedRating + (if ei.base.win then (1 : ℚ)/50 else -((1 : ℚ)/50)) := by
  intro l
  induction l with
  | nil =>
    intro x i ei ej h1 h2
    cases i <;> simp [est_walk] at h2
  | cons r rs ih =>
    intro x i ei ej h1 h2
    cases i with
    | zero =>
      simp only [est_walk, List.get?] at h1 h2
      cases h1
      cases h2
      simp [est_step]
    | succ n =>
      simp only [est_walk, List.get?] at h1 h2
      exact ih ⟨r, est_step x.estimatedRating x.base.win⟩ n ei ej h1 h2

/-- C5: on a most-recent-first shift-record sequence, the estimator returns
the empty sequence unchanged, anchors the first record's estimated rating at
that record's own true rating, keeps the records themselves, and gives every
older record the previous record's estimated rating plus 0.02 after a masked
win and minus 0.02 after a masked loss. -/
theorem c5_estimate :
    estimate [] = [] ∧
    (∀ r rs, (estimate (r :: rs)).head? = some ⟨r, r.trueRating⟩) ∧
    (∀ l, (estimate l).map EstRecord.base = l) ∧
    (∀ l i ei ej, (estimate l).get? i = some ei → (estimate l).get? (i + 1) = some ej →
      ej.estimatedRating =
        ei.estimatedRating + (if ei.base.win then (1 : ℚ)/50 else -((1 : ℚ)/50))) := by
  refine ⟨rfl, fun r rs => rfl, ?_, ?_⟩
  · intro l
    cases l with
    | nil => rfl
    | cons r rs => simp [estimate, est_walk_map_base]
  · intro l i ei ej h1 h2
    cases l with
    | nil => simp [estimate] at h1
    | cons r rs => exact est_walk_adjacent rs ⟨r, r.trueRating⟩ i ei ej h1 h2

/-- C5 witness: with the most recent record a win at true rating 8.00, the
second-most-recent record's estimated rating is 8.02. -/
theorem c5_estimate_witness :
    (estimate [⟨true, (8 : ℚ)⟩, ⟨false, (38 : ℚ)/5⟩]).get? 0 =
      some ⟨⟨true, 8⟩, 8⟩ ∧
    (estimate [⟨true, (8 : ℚ)⟩, ⟨false, (38 : ℚ)/5⟩]).get? 1 =
      some ⟨⟨false, (38 : ℚ)/5⟩, (401 : ℚ)/50⟩ ∧
    (401 : ℚ)/50 =
      (8 : ℚ) + (if true then (1 : ℚ)/50 else -((1 : ℚ)/50)) := by
  refine ⟨by norm_num [estimate, est_walk, est_step], by norm_num [estimate, est_walk, est_step], ?_⟩
  have h := c5_estimate.2.2.2 [⟨true, (8 : ℚ)⟩, ⟨false, (38 : ℚ)/5⟩] 0
    ⟨⟨true, 8⟩, 8⟩ ⟨⟨false, (38 : ℚ)/5⟩, (401 : ℚ)/50⟩
    (by norm_num [estimate, est_walk, est_step]) (by norm_num [estimate, est_walk, est_step])
  simpa using h

theorem weighted_sums_closed :
    ∀ (l : List ℚ) (w : ℚ),
      weighted_sums l w =
        (∑ i in Finset.range l.length, l.getD i 0 * (w * decay_factor ^ i),
         ∑ i in Finset.range l.length, w * decay_factor ^ i) := by
  intro l
  induction l with
  | nil => intro w; simp [weighted_sums]
  | cons r rs ih =>
    intro w
    have h1 : ∀ i, (r :: rs).getD (i + 1) 0 * (w * decay_factor ^ (i + 1)) =
        rs.getD i 0 * (w * decay_factor * decay_factor ^ i) := by
      intro i
      simp only [List.getD_cons_succ, pow_succ]
      ring
    have h2 : ∀ i, w * decay_factor ^ (i + 1) = w * decay_factor * decay_factor ^ i := by
      intro i
      simp only [pow_succ]
      ring
    simp only [weighted_sums, ih (w * decay_factor), List.length_cons]
    rw [Finset.sum_range_succ', Finset.sum_range_succ']
    rw [Finset.sum_congr rfl (fun i _ => h1 i), Finset.sum_congr rfl (fun i _ => h2 i)]
    simp only [List.getD_cons_zero, pow_zero, mul_one, Prod.mk.injEq]
    constructor
    · ring
    · ring

/-- C6: the aggregator returns no value on the empty sequence; on a nonempty
most-recent-first sequence it returns the 0.95-decay-weighted mean, the sum
of rating times decay to the position index over the sum of the decay
weights, rounded to two decimals; in particular on 10.0, 9.0, 8.0 it returns
exactly the value of the expression named by the specification. -/
theorem c6_aggregate :
    aggregate [] = none ∧
    (∀ l : List ℚ, l ≠ [] →
      aggregate l = some (round2
        ((∑ i in Finset.range l.length, l.getD i 0 * decay_factor ^ i) /
         (∑ i in Finset.range l.length, decay_factor ^ i)))) ∧
    aggregate [10, 9, 8] = some (round2
      ((10 + 9 * ((19 : ℚ)/20) + 8 * ((19 : ℚ)/20)^2) /
       (1 + (19 : ℚ)/20 + ((19 : ℚ)/20)^2))) := by
  have hmain : ∀ l : List ℚ, l ≠ [] →
      aggregate l = some (round2
        ((∑ i in Finset.range l.length, l.getD i 0 * decay_factor ^ i) /
         (∑ i in Finset.range l.length, decay_factor ^ i))) := by
    intro l hl
    cases l with
    | nil => exact absurd rfl hl
    | cons r rs =>
      show some _ = some _
      rw [weighted_sums_closed]
      simp only [one_mul]
  refine ⟨rfl, hmain, ?_⟩
  rw [hmain [10, 9, 8] (by simp)]
  norm_num [decay_factor, Finset.sum_range_succ]

/-- C6 witness: the nonempty-sequence hypothesis discharged on the
three-element example sequence of the specification. -/
theorem c6_aggregate_witness :
    ([(10 : ℚ), 9, 8] ≠ []) ∧
    aggregate [10, 9, 8] = some (round2
      ((∑ i in Finset.range 3, [(10 : ℚ), 9, 8].getD i 0 * decay_factor ^ i) /
       (∑ i in Finset.range 3, decay_factor ^ i))) :=
  ⟨by simp, c6_aggregate.2.1 [10, 9, 8] (by simp)⟩

theorem singles_scan_results_no_match {ratings : Option (List String)} {d : CalDate} :
    ∀ rs, (∀ r ∈ rs, r.resultDate ≠ d) →
      singles_scan_results ratings d rs = .ok none := by
  intro rs
  induction rs with
  | nil => intro _; rfl
  | cons r rs ih =>
    intro h
    simp only [singles_scan_results]
    rw [if_neg (h r (by simp))]
    exact ih (fun x hx => h x (by simp [hx]))

theorem singles_scan_results_empty_ratings {d : CalDate} :
    ∀ rs, singles_scan_results (some []) d rs = .ok none := by
  intro rs
  induction rs with
  | nil => rfl
  | cons r rs ih =>
    simp only [singles_scan_results]
    split
    · exact ih
    · exact ih

theorem singles_scan_results_hit {d : CalDate} {x : String} {xs : List String} :
    ∀ rs, (∃ r ∈ rs, r.resultDate = d) →
      singles_scan_results (some (x :: xs)) d rs = .ok (some x) := by
  intro rs
  induction rs with
  | nil => rintro ⟨r, hr, _⟩; exact absurd hr (by simp)
  | cons r rs ih =>
    rintro ⟨r', hr', hd⟩
    by_cases hr : r.resultDate = d
    · simp [singles_scan_results, hr]
    · rcases List.mem_cons.mp hr' with h1 | h1
      · exact absurd (h1 ▸ hd) hr
      · simp only [singles_scan_results]
        rw [if_neg hr]
        exact ih ⟨r', h1, hd⟩

theorem singles_scan_no_match {d : CalDate} :
    ∀ months, (∀ m ∈ months, ∀ r ∈ m.results, r.resultDate ≠ d) →
      singles_scan d months = .ok none := by
  intro months
  induction months with
  | nil => intro _; rfl
  | cons m ms ih =>
    intro h
    simp only [singles_scan]
    split
    · exact ih (fun x hx => h x (by simp [hx]))
    · rw [singles_scan_results_no_match m.results (h m (by simp))]
      exact ih (fun x hx => h x (by simp [hx]))

theorem singles_scan_first_hit {d : CalDate} {x : String} {xs : List String} :
    ∀ (pre : List MonthBucket) (b : MonthBucket) (post : List MonthBucket),
      (∀ m ∈ pre, (∀ r ∈ m.results, r.resultDate ≠ d) ∨ m.ratings = some []) →
      (∃ r ∈ b.results, r.resultDate = d) → b.ratings = some (x :: xs) →
      singles_scan d (pre ++ b :: post) = .ok (some x) := by
  intro pre
  induction pre with
  | nil =>
    intro b post _ hex hrat
    have hne : ¬ b.results.isEmpty := by
      rcases hex with ⟨r, hr, _⟩
      cases hb : b.results with
      | nil => rw [hb] at hr; exact absurd hr (by simp)
      | cons a as => simp [hb]
    simp only [List.nil_append, singles_scan]
    rw [if_neg hne, hrat, singles_scan_results_hit b.results hex]
  | cons m pre' ih =>
    intro b post hpre hex hrat
    have hrest : singles_scan d (pre' ++ b :: post) = .ok (some x) :=
      ih b post (fun y hy => hpre y (by simp [hy])) hex hrat
    simp only [List.cons_append, singles_scan]
    split
    · exact hrest
    · rcases hpre m (by simp) with hm | hm
      · rw [singles_scan_results_no_match m.results hm]
        exact hrest
      · rw [hm, singles_scan_results_empty_ratings m.results]
        exact hrest

theorem get_match_utr_singles_eq :
    ∀ (env : Env) (pid : String) (md : MatchData) (months : List MonthBucket),
      env.stats pid "singles" = some months →
      get_match_utr env pid md "singles" =
        if months.isEmpty then none
        else
          match singles_scan md.resultDate months with
          | .ok v => v
          | .error _ => none := by
  intro env pid md months h
  unfold get_match_utr
  simp only [if_pos rfl, h]
  by_cases hM : months.isEmpty
  · simp [hM]
  · simp [hM]

/-- C1 counterexample: a singles chart whose only bucket contains a results
entry dated exactly the match date but carries an empty ratings list makes
the locator return not-found, although a bucket does contain a results entry
dated the match date — the claim as stated is false on the code. -/
theorem c1_counterexample :
    env_c1.stats "p1" "singles" = some [⟨some [], [⟨d_apr12, "e"⟩]⟩] ∧
    (⟨d_apr12, "e"⟩ : TrendResult).resultDate = md_apr.resultDate ∧
    get_match_utr env_c1 "p1" md_apr "singles" = none := by
  refine ⟨?_, rfl, ?_⟩
  · rfl
  · rfl

/-- C1 amended: for a singles chart, if no bucket's results entry carries the
match date the locator returns not-found; and the first bucket, in feed
order, that contains a results entry dated the match date and whose ratings
list is nonempty yields the first value of that ratings list, earlier
buckets being passed over only when they have no date-matching entry or an
empty ratings list. -/
theorem c1_singles_locate :
    ∀ (env : Env) (pid : String) (md : MatchData) (months : List MonthBucket),
      env.stats pid "singles" = some months →
      ((∀ m ∈ months, ∀ r ∈ m.results, r.resultDate ≠ md.resultDate) →
        get_match_utr env pid md "singles" = none) ∧
      (∀ pre b post x xs, months = pre ++ b :: post →
        (∀ m ∈ pre, (∀ r ∈ m.results, r.resultDate ≠ md.resultDate) ∨ m.ratings = some []) →
        (∃ r ∈ b.results, r.resultDate = md.resultDate) →
        b.ratings = some (x :: xs) →
        get_match_utr env pid md "singles" = some x) := by
  intro env pid md months hstats
  constructor
  · intro hnone
    rw [get_match_utr_singles_eq env pid md months hstats]
    by_cases hM : months.isEmpty
    · simp [hM]
    · rw [if_neg hM, singles_scan_no_match months hnone]
  · intro pre b post x xs hmonths hpre hex hrat
    rw [get_match_utr_singles_eq env pid md months hstats, hmonths]
    have hne : ¬ (pre ++ b :: post).isEmpty = true := by
      simp [List.isEmpty_iff]
    rw [if_neg hne, singles_scan_first_hit pre b post hpre hex hrat]

/-- C1 witness: on a chart whose single bucket holds ratings 10.5 and 11 and
two results entries, the second dated the match date, the locator returns
10.5, the first ratings value of that bucket. -/
theorem c1_singles_locate_witness :
    get_match_utr env_c1_pos "p1" md_apr "singles" = some "10.5" :=
  (c1_singles_locate env_c1_pos "p1" md_apr
      [⟨some ["10.5", "11"], [⟨⟨2025, 4, 10⟩, "e"⟩, ⟨d_apr12, "e"⟩]⟩] rfl).2
    [] ⟨some ["10.5", "11"], [⟨⟨2025, 4, 10⟩, "e"⟩, ⟨d_apr12, "e"⟩]⟩ [] "10.5" ["11"]
    rfl (by simp) ⟨⟨d_apr12, "e"⟩, by simp, rfl⟩ rfl

/-- C3 counterexample: a details text with three parenthesized rating pairs
and five name tokens — so with neither exactly two pairs nor exactly four
names — is still parsed and attributed successfully, using the first two
pairs and the first four names: the claim's exactly-two and exactly-four
requirements are not what the code enforces. -/
theorem c3_counterexample :
    (utr_findall extra_details.data).length = 3 ∧
    (name_findall extra_details.data).length = 5 ∧
    process_result prof_store 2025 4 "p1" d_apr12 extra_details.data =
      .ok (.hit ['1', '1', '.', '2']) ∧
    get_match_utr env_c3 "p1" md_apr "doubles" = some "11.2" := by
  refine ⟨by decide, by decide, rfl, rfl⟩

/-- C3 amended: processing a doubles entry yields a rating only when all
three structural extractions succeed together — the leading
weekday-month-day token is present, at least two parenthesized rating/rating
pairs are found (the first two are used), and at least four abbreviated name
tokens are found (the first four are used); by contraposition, an entry
missing the date token, with fewer than two pairs, or with fewer than four
names never yields a rating, so no partial extraction determines the
returned rating. -/
theorem c3_parse_structure :
    ∀ (profiles : String → Option Profile) (nowY nowM : Nat) (pid : String)
      (d : CalDate) (details : List Char) (r : List Char),
      process_result profiles nowY nowM pid d details = .ok (.hit r) →
      (date_search details).isSome ∧ 2 ≤ (utr_findall details).length ∧
        4 ≤ (name_findall details).length := by
  intro profiles nowY nowM pid d details r h
  unfold process_result at h
  split at h
  · exact absurd h (by simp)
  · rename_i g hds
    refine ⟨by simp [hds], ?_⟩
    split at h
    · exact absurd h (by simp)
    · split at h
      · exact absurd h (by simp)
      · split at h
        · exact absurd h (by simp)
        · split at h
          · split at h
            · rename_i n1 n2 n3 n4 u12 u34 hn0 hn1 hn2 hn3 hu0 hu1
              have hu : 1 < (utr_findall details).length := by
                rcases List.get?_eq_some.mp hu1 with ⟨hlt, _⟩
                exact hlt
              have hn : 3 < (name_findall details).length := by
                rcases List.get?_eq_some.mp hn3 with ⟨hlt, _⟩
                exact hlt
              omega
            · exact absurd h (by simp)
          · exact absurd h (by simp)

/-- C3 witness: on the well-formed details text the processing succeeds and
the three structural extractions are all present with the required
multiplicities. -/
theorem c3_parse_structure_witness :
    process_result prof_store 2025 4 "p1" d_apr12 good_details.data =
      .ok (.hit ['1', '1', '.', '2']) ∧
    ((date_search good_details.data).isSome ∧
      2 ≤ (utr_findall good_details.data).length ∧
      4 ≤ (name_findall good_details.data).length) :=
  ⟨rfl,
   c3_parse_structure prof_store 2025 4 "p1" d_apr12 good_details.data
     ['1', '1', '.', '2'] rfl⟩

/-- C2: evaluation at the failing input.  In a doubles chart whose first
scanned results entry fails the structural parse and whose second entry is
parseable, dated the match day and attributable to the subject, the locator
returns not-found at the first entry instead of continuing the scan — the
same chart reduced to the second entry alone yields 11.2.  The same early
return is taken when a date-matching parsed entry resolves to neither team. -/
theorem c2_scan_abort :
    date_search bad_details.data = none ∧
    env_c2.stats "p1" "doubles" =
      some [⟨some [], [⟨d_apr12, bad_details⟩, ⟨d_apr12, good_details⟩]⟩] ∧
    get_match_utr env_c2 "p1" md_apr "doubles" = none ∧
    get_match_utr env_c2_good "p1" md_apr "doubles" = some "11.2" :=
  ⟨rfl, rfl, rfl, rfl⟩

/-- C7 counterexample: with a results feed holding a malformed row — its
players structure missing the winner2 field — followed by a row whose rating
lookup succeeds, the reconciliation returns None and loses the good match;
the feed reduced to the good row alone returns its mapping.  The claim that
a malformed record degrades to a single unresolved match is false on the
code. -/
theorem c7_counterexample :
    env_c7.results "p1" = some [row_bad, row_good] ∧
    row_bad.winner2 = none ∧
    get_player_utr_scores env_c7 "p1" = none ∧
    get_player_utr_scores env_c7_good "p1" = some [("m1", ⟨"10.5", d_apr12⟩)] :=
  ⟨rfl, rfl, rfl, rfl⟩

theorem rows_loop_ok_of_winner2_present :
    ∀ (env : Env) (pid : String) (rows : List ResultRow) (acc : List (String × UtrRec)),
      (∀ row ∈ rows, row.winner2.isSome) →
      ∃ m, rows_loop env pid rows acc = .ok m := by
  intro env pid rows
  induction rows with
  | nil => intro acc _; exact ⟨acc, rfl⟩
  | cons row rest ih =>
    intro acc h
    have hw : row.winner2.isSome := h row (by simp)
    rcases Option.isSome_iff_exists.mp hw with ⟨w2, hw2⟩
    have hrest : ∀ r ∈ rest, r.winner2.isSome := fun r hr => h r (by simp [hr])
    simp only [rows_loop, hw2]
    split
    · exact ih _ hrest
    · exact ih _ hrest

/-- C7 amended: failures of the rating lookup itself are indeed not fatal —
whenever every row's players structure carries the winner2 field, the
reconciliation returns a mapping (never None), with unresolved matches
merely omitted; but a row whose players structure is missing the winner2
field raises, aborting the whole run to None. -/
theorem c7_lookup_failures_nonfatal :
    ∀ (env : Env) (pid : String) (rows : List ResultRow),
      env.results pid = some rows →
      (∀ row ∈ rows, row.winner2.isSome) →
      (get_player_utr_scores env pid).isSome := by
  intro env pid rows hres hw
  simp only [get_player_utr_scores, hres]
  by_cases hM : rows.isEmpty
  · simp [hM]
  · rw [if_neg hM]
    rcases rows_loop_ok_of_winner2_present env pid rows [] hw with ⟨m, hm⟩
    rw [hm]
    rfl

/-- C7 witness: a feed with one resolvable row and one row whose rating
lookup returns not-found still produces a mapping; the failed lookup is
demonstrated alongside. -/
theorem c7_lookup_failures_nonfatal_witness :
    (get_player_utr_scores env_c7_wit "p1").isSome ∧
    get_match_utr env_c7_wit "p1" ⟨⟨2025, 5, 1⟩, "Singles B"⟩ "singles" = none :=
  ⟨c7_lookup_failures_nonfatal env_c7_wit "p1" [row_good, row_miss] rfl (by decide),
   rfl⟩

theorem dict_insert_mem :
    ∀ (m : List (String × UtrRec)) (k : String) (v : UtrRec) (p : String × UtrRec),
      p ∈ dict_insert m k v → p ∈ m ∨ p = (k, v) := by
  intro m k v p h
  unfold dict_insert at h
  split at h
  · rcases List.mem_map.mp h with ⟨q, hq, hpq⟩
    by_cases hk : q.1 = k
    · right
      rw [← hpq]
      simp [hk]
    · left
      rw [← hpq]
      simp only [if_neg hk]
      exact hq
  · rcases List.mem_append.mp h with h1 | h1
    · exact Or.inl h1
    · right
      simpa using h1

theorem rows_loop_entries :
    ∀ (env : Env) (pid : String) (rest : List ResultRow)
      (acc m : List (String × UtrRec)),
      rows_loop env pid rest acc = .ok m →
      ∀ p ∈ m, p ∈ acc ∨
        ∃ row ∈ rest, row.event_id = p.1 ∧ p.2.date = row.date ∧
          ∃ w2, row.winner2 = some w2 ∧
            get_match_utr env pid ⟨row.date, row.event_name⟩
              (if w2 = none then "singles" else "doubles") = some p.2.utr := by
  intro env pid rest
  induction rest with
  | nil =>
    intro acc m h p hp
    simp only [rows_loop, Except.ok.injEq] at h
    exact Or.inl (h ▸ hp)
  | cons row rest' ih =>
    intro acc m h p hp
    simp only [rows_loop] at h
    split at h
    · exact absurd h (by simp)
    · rename_i w2 hw2
      split at h
      · rename_i u hu
        rcases ih _ m h p hp with hacc | ⟨row', hrow', hprop⟩
        · rcases dict_insert_mem acc row.event_id ⟨u, row.date⟩ p hacc with h1 | h1
          · exact Or.inl h1
          · refine Or.inr ⟨row, by simp, ?_⟩
            rw [h1]
            exact ⟨rfl, rfl, w2, hw2, hu⟩
        · exact Or.inr ⟨row', by simp [hrow'], hprop⟩
      · rcases ih _ m h p hp with hacc | ⟨row', hrow', hprop⟩
        · exact Or.inl hacc
        · exact Or.inr ⟨row', by simp [hrow'], hprop⟩

/-- C10: every entry of a mapping returned by get_player_utr_scores comes
from a feed row whose rating lookup succeeded — the entry's key is that
row's event id, its value carries the row's original date and a rating the
lookup actually returned (so no key maps to a null rating); rows whose
lookup returned not-found contribute no entry. -/
theorem c10_mapping_entries :
    ∀ (env : Env) (pid : String) (m : List (String × UtrRec)),
      get_player_utr_scores env pid = some m →
      ∀ p ∈ m, ∃ rows, env.results pid = some rows ∧
        ∃ row ∈ rows, row.event_id = p.1 ∧ p.2.date = row.date ∧
          ∃ w2, row.winner2 = some w2 ∧
            get_match_utr env pid ⟨row.date, row.event_name⟩
              (if w2 = none then "singles" else "doubles") = some p.2.utr := by
  intro env pid m h p hp
  unfold get_player_utr_scores at h
  split at h
  · simp only [Option.some.injEq] at h
    rw [← h] at hp
    exact absurd hp (by simp)
  · rename_i rows hres
    split at h
    · rename_i hM
      simp only [Option.some.injEq] at h
      rw [← h] at hp
      exact absurd hp (by simp)
    · split at h
      · rename_i m' hloop
        simp only [Option.some.injEq] at h
        subst h
        rcases rows_loop_entries env pid rows [] m' hloop p hp with hacc | hrow
        · exact absurd hacc (by simp)
        · exact ⟨rows, hres, hrow⟩
      · exact absurd h (by simp)

/-- C10 witness: in the single-row scenario the one mapping entry is traced
back to its feed row, its date and its successful lookup. -/
theorem c10_mapping_entries_witness :
    ∃ rows, env_c7_good.results "p1" = some rows ∧
      ∃ row ∈ rows, row.event_id = "m1" ∧ d_apr12 = row.date ∧
        ∃ w2, row.winner2 = some w2 ∧
          get_match_utr env_c7_good "p1" ⟨row.date, row.event_name⟩
            (if w2 = none then "singles" else "doubles") = some "10.5" :=
  c10_mapping_entries env_c7_good "p1" [("m1", ⟨"10.5", d_apr12⟩)] rfl
    ("m1", ⟨"10.5", d_apr12⟩) (by simp)
